import Mathlib

/-!
Verification development for the `luadec` Lua 4.0 bytecode decompiler
(`src/luadec/src/main.rs`).  The data model and the operations below are a
shallow embedding of the Rust source: machine integers become `Nat`/`Int`
(with explicit two's-complement reinterpretation where the source casts),
fallible code (nom parse errors, Rust panics) becomes an explicit result
type, and the two recursive algorithms (`to_nodes`, `process_node`) are
given a structural fuel argument so that every definition is executable.
A value of `none` / `.panic` models a Rust panic (`unwrap`, `assert!`,
`todo!`, `unimplemented!`, arithmetic-overflow or index panics).
-/

/-- Closed enumeration of the 49 Lua 4.0 opcodes, in the declaration order of
the Rust `enum OpCode` (the derived `FromPrimitive`/`Ord` instances use this
order). -/
inductive OpCode where
  | End | Return | Call | TailCall | PushNil | Pop
  | PushInt | PushString | PushNumber | PushNegativeNumber | PushUpValue
  | GetLocal | GetGlobal | GetTable | GetDotted | GetIndexed | PushSelf
  | CreateTable | SetLocal | SetGlobal | SetTable | SetList | SetMap
  | Add | AddInt | Subtract | Multiply | Divide | Power | Concat
  | Minus | Not
  | JumpNotEqual | JumpEqual | JumpLessThan | JumpLessThanEqual
  | JumpGreaterThan | JumpGreaterThanEqual | JumpIfTrue | JumpIfFalse
  | JumpOnTrue | JumpOnFalse | Jump | PushNilJump
  | ForPrep | ForLoop | LForPrep | LForLoop | Closure
deriving DecidableEq, Repr

/-- Discriminant of an opcode, matching the Rust enum's `ToPrimitive`. -/
def OpCode.toNat : OpCode → Nat
  | .End => 0 | .Return => 1 | .Call => 2 | .TailCall => 3 | .PushNil => 4
  | .Pop => 5 | .PushInt => 6 | .PushString => 7 | .PushNumber => 8
  | .PushNegativeNumber => 9 | .PushUpValue => 10 | .GetLocal => 11
  | .GetGlobal => 12 | .GetTable => 13 | .GetDotted => 14 | .GetIndexed => 15
  | .PushSelf => 16 | .CreateTable => 17 | .SetLocal => 18 | .SetGlobal => 19
  | .SetTable => 20 | .SetList => 21 | .SetMap => 22 | .Add => 23
  | .AddInt => 24 | .Subtract => 25 | .Multiply => 26 | .Divide => 27
  | .Power => 28 | .Concat => 29 | .Minus => 30 | .Not => 31
  | .JumpNotEqual => 32 | .JumpEqual => 33 | .JumpLessThan => 34
  | .JumpLessThanEqual => 35 | .JumpGreaterThan => 36
  | .JumpGreaterThanEqual => 37 | .JumpIfTrue => 38 | .JumpIfFalse => 39
  | .JumpOnTrue => 40 | .JumpOnFalse => 41 | .Jump => 42 | .PushNilJump => 43
  | .ForPrep => 44 | .ForLoop => 45 | .LForPrep => 46 | .LForLoop => 47
  | .Closure => 48

/-- Partial inverse of `OpCode.toNat`, matching the derived `FromPrimitive`
used by `Instruction::op`; `none` models the `expect("Invalid Instruction!")`
panic for out-of-range discriminants. -/
def OpCode.ofNat? : Nat → Option OpCode
  | 0 => some .End | 1 => some .Return | 2 => some .Call | 3 => some .TailCall
  | 4 => some .PushNil | 5 => some .Pop | 6 => some .PushInt
  | 7 => some .PushString | 8 => some .PushNumber
  | 9 => some .PushNegativeNumber | 10 => some .PushUpValue
  | 11 => some .GetLocal | 12 => some .GetGlobal | 13 => some .GetTable
  | 14 => some .GetDotted | 15 => some .GetIndexed | 16 => some .PushSelf
  | 17 => some .CreateTable | 18 => some .SetLocal | 19 => some .SetGlobal
  | 20 => some .SetTable | 21 => some .SetList | 22 => some .SetMap
  | 23 => some .Add | 24 => some .AddInt | 25 => some .Subtract
  | 26 => some .Multiply | 27 => some .Divide | 28 => some .Power
  | 29 => some .Concat | 30 => some .Minus | 31 => some .Not
  | 32 => some .JumpNotEqual | 33 => some .JumpEqual | 34 => some .JumpLessThan
  | 35 => some .JumpLessThanEqual | 36 => some .JumpGreaterThan
  | 37 => some .JumpGreaterThanEqual | 38 => some .JumpIfTrue
  | 39 => some .JumpIfFalse | 40 => some .JumpOnTrue | 41 => some .JumpOnFalse
  | 42 => some .Jump | 43 => some .PushNilJump | 44 => some .ForPrep
  | 45 => some .ForLoop | 46 => some .LForPrep | 47 => some .LForLoop
  | 48 => some .Closure
  | _ => none

/-- Source `OpCode::is_jump`: the derived `Ord` compares discriminants, so the Rust
`*self >= JumpNotEqual && *self <= Jump` is the discriminant range 32..=42. -/
def OpCode.is_jump (o : OpCode) : Bool :=
  OpCode.JumpNotEqual.toNat ≤ o.toNat && o.toNat ≤ OpCode.Jump.toNat

/-- Stack effect classification from the Rust `enum StackChange`. -/
inductive StackChange where
  | Constant : Nat → StackChange
  | Delta : StackChange
  | None : StackChange
deriving DecidableEq, Repr

/-- Static push effect per opcode, `OpCode::push_count`. -/
def OpCode.push_count : OpCode → StackChange
  | .End | .Return => .None
  | .Call => .Delta
  | .TailCall => .None
  | .PushNil => .Delta
  | .Pop => .None
  | .PushInt | .PushString | .PushNumber | .PushNegativeNumber | .PushUpValue
  | .GetLocal | .GetGlobal | .GetTable | .GetDotted | .GetIndexed =>
      .Constant 1
  | .PushSelf => .Constant 2
  | .CreateTable => .Constant 1
  | .SetLocal | .SetGlobal => .None
  | .SetTable | .SetList | .SetMap => .None
  | .Add | .AddInt | .Subtract | .Multiply | .Divide | .Power => .Constant 1
  | .Concat => .Constant 1
  | .Minus | .Not => .Constant 1
  | .JumpNotEqual | .JumpEqual | .JumpLessThan | .JumpLessThanEqual
  | .JumpGreaterThan | .JumpGreaterThanEqual | .JumpIfTrue | .JumpIfFalse
  | .JumpOnTrue | .JumpOnFalse | .Jump | .PushNilJump
  | .ForPrep | .ForLoop => .None
  | .LForPrep => .Constant 2
  | .LForLoop => .None
  | .Closure => .Constant 1

/-- Static pop effect per opcode, `OpCode::pop_count`. -/
def OpCode.pop_count : OpCode → StackChange
  | .End => .None
  | .Return | .Call | .TailCall => .Delta
  | .PushNil => .None
  | .Pop => .Delta
  | .PushInt | .PushString | .PushNumber | .PushNegativeNumber | .PushUpValue
  | .GetLocal | .GetGlobal => .None
  | .GetTable => .Constant 2
  | .GetDotted | .GetIndexed | .PushSelf => .Constant 1
  | .CreateTable => .None
  | .SetLocal | .SetGlobal => .Constant 1
  | .SetTable | .SetList | .SetMap => .Delta
  | .Add => .Constant 2
  | .AddInt => .Constant 1
  | .Subtract | .Multiply | .Divide | .Power => .Constant 2
  | .Concat => .Delta
  | .Minus | .Not => .Constant 1
  | .JumpNotEqual | .JumpEqual | .JumpLessThan | .JumpLessThanEqual
  | .JumpGreaterThan | .JumpGreaterThanEqual => .Constant 2
  | .JumpIfTrue | .JumpIfFalse | .JumpOnTrue | .JumpOnFalse => .Constant 1
  | .Jump => .None
  | .PushNilJump => .None
  | .ForPrep => .None
  | .ForLoop => .Constant 3
  | .LForPrep => .None
  | .LForLoop => .Constant 3
  | .Closure => .Delta

/-- Decoded instruction word plus the three field widths needed to re-derive
its sub-fields, mirroring the Rust `struct Instruction`.  The word is a
`usize` in the source, so it is always `< 2^64`. -/
structure Instruction where
  instruction : Nat
  size_instruction : Nat
  size_op : Nat
  size_b : Nat
deriving DecidableEq, Repr

/-- Opcode field: mask the low `size_op` bits
(`self.instruction & !((!0) << self.size_op)`) and resolve via
`FromPrimitive`; `none` models the `expect` panic on an unknown opcode. -/
def Instruction.op (i : Instruction) : Option OpCode :=
  OpCode.ofNat? (i.instruction % 2 ^ i.size_op)

/-- Unsigned operand: `self.instruction >> self.size_op`. -/
def Instruction.u (i : Instruction) : Nat :=
  i.instruction / 2 ^ i.size_op

/-- Reinterpretation of a 64-bit `usize` value as an `isize`, modelling the
Rust `as isize` cast used by `Instruction::s`. -/
def intOfUsize (n : Nat) : Int :=
  if n < 2 ^ 63 then (n : Int) else (n : Int) - 2 ^ 64

/-- Signed operand:
`(self.u() as isize) - (((1 << (size_instruction - size_op)) - 1) >> 1)`.
The bias subtraction uses truncated `Nat` subtraction in the width
difference, matching the source for the only meaningful case
`size_op ≤ size_instruction`. -/
def Instruction.s (i : Instruction) : Int :=
  intOfUsize i.u - ((2 ^ (i.size_instruction - i.size_op) - 1) / 2 : Nat)

/-- A operand: `self.instruction >> (self.size_op + self.size_b)`. -/
def Instruction.a (i : Instruction) : Nat :=
  i.instruction / 2 ^ (i.size_op + i.size_b)

/-- B operand: `(self.instruction >> self.size_op) & !((!0) << self.size_b)`. -/
def Instruction.b (i : Instruction) : Nat :=
  (i.instruction / 2 ^ i.size_op) % 2 ^ i.size_b

/-- Source `Instruction::push_count` resolved to a number of stack slots; `none`
models a panic (invalid opcode, or the `unreachable!` arms). -/
def Instruction.push_count (i : Instruction) : Option Nat :=
  match i.op with
  | none => none
  | some op =>
    match op.push_count with
    | .Constant r => some r
    | .None => some 0
    | .Delta =>
      match op with
      | .PushNil => some i.u
      | .Call => some i.b
      | _ => none

/-- Source `Instruction::pop_count` resolved to a number of stack slots; `none`
models a panic (invalid opcode, the `todo!` arms for `SetList`/`SetMap`, or
the `unreachable!` arm). -/
def Instruction.pop_count (i : Instruction) : Option Nat :=
  match i.op with
  | none => none
  | some op =>
    match op.pop_count with
    | .Constant r => some r
    | .None => some 0
    | .Delta =>
      match op with
      | .Pop => some i.u
      | .SetTable => some i.b
      | .SetList => none
      | .SetMap => none
      | .Concat => some i.u
      | .Closure => some i.b
      | .Call => some i.a
      | .Return => some i.u
      | _ => none

/-- Outcome of a fallible parsing step over a byte list.  `ok rest v` is a
nom success with remaining input; `err` is a nom parse error (e.g. not
enough input); `panic` models a Rust panic (`unimplemented!`, `assert!`,
out-of-bounds indexing). -/
inductive PResult (α : Type) where
  | ok : List Nat → α → PResult α
  | err : PResult α
  | panic : PResult α
deriving DecidableEq, Repr

/-- Map a function over the value of a successful parse. -/
def PResult.map (f : α → β) : PResult α → PResult β
  | .ok rest v => .ok rest (f v)
  | .err => .err
  | .panic => .panic

/-- Split off the first `n` bytes of the input, failing if it is too short
(the behaviour of the fixed-width nom number parsers). -/
def takeBytes : Nat → List Nat → Option (List Nat × List Nat)
  | 0, l => some ([], l)
  | _ + 1, [] => none
  | n + 1, b :: l =>
    match takeBytes n l with
    | some (bs, rest) => some (b :: bs, rest)
    | none => none

/-- Big-endian value of a byte list. -/
def beVal (bs : List Nat) : Nat :=
  bs.foldl (fun acc b => acc * 256 + b) 0

/-- Little-endian value of a byte list. -/
def leVal (bs : List Nat) : Nat :=
  beVal bs.reverse

/-- Read `n` bytes as a big-endian unsigned value (nom's `be_u16`/`be_u32`/
`be_u64` family). -/
def beU (n : Nat) (input : List Nat) : PResult Nat :=
  match takeBytes n input with
  | some (bs, rest) => .ok rest (beVal bs)
  | none => .err

/-- Read `n` bytes as a little-endian unsigned value (nom's `le_u16`/
`le_u32`/`le_u64` family). -/
def leU (n : Nat) (input : List Nat) : PResult Nat :=
  match takeBytes n input with
  | some (bs, rest) => .ok rest (leVal bs)
  | none => .err

/-- Two's-complement reinterpretation of an unsigned `bits`-wide value,
used for the `be_i16`/`le_i16`/`be_i32`/`le_i32` readers. -/
def intOfTwos (v bits : Nat) : Int :=
  if v < 2 ^ (bits - 1) then (v : Int) else (v : Int) - 2 ^ bits

/-- Chunk header, mirroring the Rust `struct Header` (the borrowed
signature/test-number bytes are carried as plain data). -/
structure Header where
  id_chunk : Nat
  signature : String
  version : Nat
  endianess : Nat
  sizeof_int : Nat
  sizeof_size_t : Nat
  sizeof_instruction : Nat
  size_instruction : Nat
  size_op : Nat
  size_b : Nat
  sizeof_number : Nat
  test_number : List Nat
deriving Repr

/-- The `number` decoder.  The source selects an IEEE-754 float reader by
the header's `(sizeof_number, endianess)` pair and returns an `f64`; the
model returns the raw bit pattern that was read (the `f32 as f64` widening
is not modelled — no claim depends on the numeric value, only on the byte
consumption and the success/failure structure).  The `unimplemented!()` arm
for unsupported pairs is a panic. -/
def number (input : List Nat) (h : Header) : PResult Nat :=
  match h.sizeof_number, h.endianess with
  | 0x04, 0 => beU 4 input
  | 0x04, 1 => leU 4 input
  | 0x08, 0 => beU 8 input
  | 0x08, 1 => leU 8 input
  | _, _ => .panic

/-- The `instruction` decoder: read one word of width
`sizeof_instruction` in the header's endianness and bundle the three field
widths; `unimplemented!()` on unsupported pairs is a panic. -/
def instruction (input : List Nat) (h : Header) : PResult Instruction :=
  match h.sizeof_instruction, h.endianess with
  | 0x02, 0 => (beU 2 input).map
      (fun w => ⟨w, h.size_instruction, h.size_op, h.size_b⟩)
  | 0x02, 1 => (leU 2 input).map
      (fun w => ⟨w, h.size_instruction, h.size_op, h.size_b⟩)
  | 0x04, 0 => (beU 4 input).map
      (fun w => ⟨w, h.size_instruction, h.size_op, h.size_b⟩)
  | 0x04, 1 => (leU 4 input).map
      (fun w => ⟨w, h.size_instruction, h.size_op, h.size_b⟩)
  | 0x08, 0 => (beU 8 input).map
      (fun w => ⟨w, h.size_instruction, h.size_op, h.size_b⟩)
  | 0x08, 1 => (leU 8 input).map
      (fun w => ⟨w, h.size_instruction, h.size_op, h.size_b⟩)
  | _, _ => .panic

/-- The `int` decoder: a signed integer of width `sizeof_int` in the
header's endianness, widened to `i32`; unsupported pairs panic. -/
def int (input : List Nat) (h : Header) : PResult Int :=
  match h.sizeof_int, h.endianess with
  | 0x02, 0 => (beU 2 input).map (intOfTwos · 16)
  | 0x02, 1 => (leU 2 input).map (intOfTwos · 16)
  | 0x04, 0 => (beU 4 input).map (intOfTwos · 32)
  | 0x04, 1 => (leU 4 input).map (intOfTwos · 32)
  | _, _ => .panic

/-- The `size_t` decoder: an unsigned integer of width `sizeof_size_t` in
the header's endianness, widened to `usize`; unsupported pairs panic. -/
def size_t (input : List Nat) (h : Header) : PResult Nat :=
  match h.sizeof_size_t, h.endianess with
  | 0x02, 0 => beU 2 input
  | 0x02, 1 => leU 2 input
  | 0x04, 0 => beU 4 input
  | 0x04, 1 => leU 4 input
  | 0x08, 0 => beU 8 input
  | 0x08, 1 => leU 8 input
  | _, _ => .panic

/-- The Rust `count as usize` cast of an `i32` count (two's-complement
reinterpretation into 64 bits: negative counts become huge). -/
def i32ToUsize (i : Int) : Nat :=
  (i % (2 ^ 64 : Int)).toNat

/-- nom's `many_m_n(count, count, p)`: exactly `n` repetitions of `p`,
propagating the first failure. -/
def many_n (p : List Nat → PResult α) : Nat → List Nat → PResult (List α)
  | 0, input => .ok input []
  | n + 1, input =>
    match p input with
    | .ok rest v =>
      match many_n p n rest with
      | .ok rest' vs => .ok rest' (v :: vs)
      | .err => .err
      | .panic => .panic
    | .err => .err
    | .panic => .panic

/-- The `code` parser: a count-prefixed instruction array followed by the
source's `assert!(code[code.len() - 1].op() == OpCode::End)`.  Indexing
`code.len() - 1` of an empty vector, an invalid opcode in the last slot,
and a failed assertion are all panics. -/
def code (input : List Nat) (h : Header) : PResult (List Instruction) :=
  match int input h with
  | .ok rest count =>
    match many_n (fun i => instruction i h) (i32ToUsize count) rest with
    | .ok rest' instrs =>
      match instrs.getLast? with
      | none => .panic
      | some last =>
        match last.op with
        | none => .panic
        | some o => if o = OpCode.End then .ok rest' instrs else .panic
    | .err => .err
    | .panic => .panic
  | .err => .err
  | .panic => .panic

/-- One reconstructed syntax node: an instruction plus ordered children,
mirroring the Rust `struct Node`. -/
inductive Node where
  | mk : Instruction → List Node → Node
deriving Repr

/-- The instruction of a node. -/
def Node.instruction : Node → Instruction
  | .mk i _ => i

/-- The children of a node. -/
def Node.children : Node → List Node
  | .mk _ cs => cs

/-- The inner child-collection loop of `to_nodes`:
`while needed > 0 { let n = unused.pop_back().unwrap(); needed -= n.instruction.push_count(); children.push(n) }`.
The `unused` deque is only ever pushed/popped at the back, so it is
represented as a list with its head at the back of the deque.  `none`
models a panic: either `pop_back().unwrap()` on an empty deque, a panic
inside `push_count`, or the checked `usize` subtraction underflowing when
a producer pushes more than the remaining requirement. -/
def takeChildren : Nat → List Node → Option (List Node × List Node)
  | 0, unused => some ([], unused)
  | _ + 1, [] => none
  | needed + 1, node :: rest =>
    match node.instruction.push_count with
    | none => none
    | some p =>
      if p ≤ needed + 1 then
        match takeChildren (needed + 1 - p) rest with
        | some (cs, rest') => some (node :: cs, rest')
        | none => none
      else none

/-- Fuel-indexed body of `to_nodes`.  The instruction queue is represented
in forward program order (the source reverses the list into a `VecDeque`
and then always pops from the back, so the head of this list is the next
instruction processed).  Returns `(terminated, unused, trace)` where
`trace` is ghost instrumentation recording the order in which instructions
are processed (the order of the source's per-instruction `log::info!`
lines, nested recursive calls included).  `none` models a panic; the fuel
is an artifact of the embedding, and `to_nodes` below supplies enough for
the recursion to run to completion. -/
def toNodesCoreF : Nat → List Instruction → List Node → List Node →
    Option (List Node × List Node × List Instruction)
  | 0, _, _, _ => none
  | _ + 1, [], unused, term => some (term, unused, [])
  | fuel + 1, instr :: queue, unused, term =>
    match instr.op, instr.push_count, instr.pop_count with
    | some op, some push, some pop =>
      match takeChildren pop unused with
      | none => none
      | some (children, unused') =>
        if op.is_jump && decide (0 < instr.s) then
          if instr.s.toNat ≤ queue.length then
            match toNodesCoreF fuel (queue.take instr.s.toNat) [] [] with
            | some (body, [], btr) =>
              (toNodesCoreF fuel (queue.drop instr.s.toNat)
                  (if push ≠ 0 then
                    Node.mk instr (children ++ body) :: unused'
                  else unused')
                  (if push ≠ 0 then term
                  else term ++ [Node.mk instr (children ++ body)])).map
                (fun r => (r.1, r.2.1, instr :: (btr ++ r.2.2)))
            | _ => none
          else none
        else
          (toNodesCoreF fuel queue
              (if push ≠ 0 then Node.mk instr children :: unused' else unused')
              (if push ≠ 0 then term else term ++ [Node.mk instr children])).map
            (fun r => (r.1, r.2.1, instr :: r.2.2))
    | _, _, _ => none

/-- Source `to_nodes`: run the builder on a whole instruction array and apply the
final `assert_eq!(0, unused.len())`; a non-empty residue, like any panic
inside the loop, is a hard failure (`none`).  Each step consumes at least
one instruction at its own level and recurses only into strictly shorter
sub-ranges, so `length + 1` fuel always suffices. -/
def to_nodes (instrs : List Instruction) : Option (List Node) :=
  match toNodesCoreF (instrs.length + 1) instrs [] [] with
  | some (term, [], _) => some term
  | _ => none

/-- Processing-order trace of a successful `to_nodes` run (the order of the
source's `log::info!` lines, nested jump-range recursion included). -/
def toNodesTrace (instrs : List Instruction) : Option (List Instruction) :=
  match toNodesCoreF (instrs.length + 1) instrs [] [] with
  | some (_, [], tr) => some tr
  | _ => none

/-- Local-variable record (`struct Local`); `stop` is the source's `end`
field, renamed because `end` is a Lean keyword. -/
structure Local where
  name : String
  start : Int
  stop : Int
deriving Repr

/-- Nested function prototype as used by the `Closure` rendering arm (only
`param_count` is consulted there). -/
structure Prototype where
  param_count : Int
deriving Repr

/-- Per-function constants pool (`struct Constants`) as consumed by the
code generator: strings, `f64` numbers, nested prototypes. -/
structure Constants where
  strings : List String
  numbers : List Float
  functions : List Prototype

/-- Rendering of a single instruction given its already-rendered children,
the body of the `match instruction.op()` in `process_node`.  `none` models
a panic: a failed `unwrap` on a missing child or constant, the slicing
panics (`split_at`, `children.len() - 1` on no children), an invalid
opcode, or the final `todo!()` arm for opcodes with no rendering rule.
The six comparison jumps appear as explicit arms carrying their inverted
operator, exactly as the source's inner operator `match` assigns them. -/
def renderOne (i : Instruction) (children : List String) (locals : List Local)
    (constants : Constants) : Option String :=
  match i.op with
  | none => none
  | some op =>
    match op with
    | .End => some ""
    | .Return => some ("return " ++ String.intercalate ", " children)
    | .Call =>
      match children.getLast? with
      | none => none
      | some callee =>
        some (callee ++ "(" ++ String.intercalate ", " children.dropLast ++ ")")
    | .PushNil => some (String.join (List.replicate i.u "nil"))
    | .PushInt => some (toString i.s)
    | .PushString =>
      match constants.strings.get? i.u with
      | some s => some ("\"" ++ s ++ "\"")
      | none => none
    | .PushNumber =>
      match constants.numbers.get? i.u with
      | some x => some (toString x)
      | none => none
    | .PushNegativeNumber =>
      match constants.numbers.get? i.u with
      | some x => some (toString (-x))
      | none => none
    | .GetLocal =>
      some (((locals.get? i.u).map (fun l => l.name)).getD
        ("local_" ++ toString i.u))
    | .GetGlobal =>
      match constants.strings.get? i.u with
      | some s => some s
      | none => none
    | .GetDotted =>
      match children.get? 0, constants.strings.get? i.u with
      | some c0, some s => some (c0 ++ "." ++ s)
      | _, _ => none
    | .PushSelf =>
      match children.get? 0, constants.strings.get? i.u with
      | some c0, some s => some (c0 ++ ":" ++ s)
      | _, _ => none
    | .CreateTable =>
      if 0 < i.u then some ("\x7bn=" ++ toString i.u ++ "\x7d")
      else some "\x7b\x7d"
    | .SetGlobal =>
      match constants.strings.get? i.u, children.get? 0 with
      | some s, some c0 => some (s ++ " = " ++ c0)
      | _, _ => none
    | .SetTable =>
      match children.get? 2, children.get? 1, children.get? 0 with
      | some c2, some c1, some c0 => some (c2 ++ "[" ++ c1 ++ "] = " ++ c0)
      | _, _, _ => none
    | .AddInt =>
      match children.get? 0 with
      | some c0 => some (c0 ++ " + " ++ toString i.s)
      | none => none
    | .JumpNotEqual => renderIf "==" children
    | .JumpEqual => renderIf "~=" children
    | .JumpLessThan => renderIf ">=" children
    | .JumpLessThanEqual => renderIf ">" children
    | .JumpGreaterThan => renderIf "<=" children
    | .JumpGreaterThanEqual => renderIf "<" children
    | .JumpIfTrue => renderIfTruthy "not " children
    | .JumpIfFalse => renderIfTruthy "" children
    | .Closure =>
      match constants.functions.get? i.a with
      | none => none
      | some f =>
        some ("function(" ++
          String.intercalate ", "
            ((List.range f.param_count.toNat).map
              (fun j => "local_" ++ toString j)) ++
          ")\n" ++ String.intercalate "\n" children ++ "\nend")
    | _ => none
where
  /-- Comparison-jump arm: `children.split_at(2)` (a panic below two
  children), guard from the two popped operands with the inverted operator,
  body lines split on newlines and reindented. -/
  renderIf (opstr : String) : List String → Option String
    | p0 :: p1 :: body =>
      some ("if (" ++ p1 ++ " " ++ opstr ++ " " ++ p0 ++ ") then\n  " ++
        String.intercalate "\n  " (body.flatMap (fun l => l.splitOn "\n")) ++
        "\nend")
    | _ => none
  /-- Truthiness-jump arm: `children.split_at(1)`, with the source's
  `format!("if ({} {}) then…", op, params[0])` spacing kept verbatim. -/
  renderIfTruthy (opstr : String) : List String → Option String
    | p0 :: body =>
      some ("if (" ++ opstr ++ " " ++ p0 ++ ") then\n  " ++
        String.intercalate "\n  " (body.flatMap (fun l => l.splitOn "\n")) ++
        "\nend")
    | _ => none

/-- Fuel-indexed rendering of a list of sibling nodes, each node's children
rendered (depth-first) before the node itself, mirroring the recursive
`children` map at the top of `process_node`. -/
def renderListF : Nat → List Node → List Local → Constants →
    Option (List String)
  | 0, _, _, _ => none
  | _ + 1, [], _, _ => some []
  | fuel + 1, Node.mk i cs :: ns, locals, constants =>
    match renderListF fuel cs locals constants with
    | none => none
    | some childStrs =>
      match renderOne i childStrs locals constants with
      | none => none
      | some s =>
        match renderListF fuel ns locals constants with
        | none => none
        | some rest => some (s :: rest)

/-- Source `process_node` on one node.  The fuel argument is an artifact of the
embedding (the Rust recursion is total on the finite node tree): any fuel
exceeding the total node count of the tree is sufficient, and the negative
theorems below hold for every positive fuel. -/
def process_node : Nat → Node → List Local → Constants → Option String
  | 0, _, _, _ => none
  | fuel + 1, Node.mk i cs, locals, constants =>
    match renderListF fuel cs locals constants with
    | none => none
    | some childStrs => renderOne i childStrs locals constants

/-- The caller loop in `main`: render every top-level node with a fresh
empty locals table and collect the lines.  A panic in any node aborts the
whole collection — there is no per-node recovery. -/
def renderAll (fuel : Nat) (nodes : List Node) (constants : Constants) :
    Option (List String) :=
  match nodes with
  | [] => some []
  | n :: rest =>
    match process_node fuel n [] constants with
    | none => none
    | some s =>
      match renderAll fuel rest constants with
      | none => none
      | some ss => some (s :: ss)

/-- Modelled from the spec (§4.5), for comparison with `takeChildren`:
"Pop from the back of `unused`, accumulating children, until accumulated
children's push counts sum to at least the pop requirement" — the
accumulation stops as soon as the running total reaches or exceeds the
requirement, instead of subtracting exactly. -/
def specTakeAtLeast : Nat → List Node → Option (List Node × List Node)
  | 0, unused => some ([], unused)
  | _ + 1, [] => none
  | needed + 1, node :: rest =>
    match node.instruction.push_count with
    | none => none
    | some p =>
      if needed + 1 ≤ p then some ([node], rest)
      else
        match specTakeAtLeast (needed + 1 - p) rest with
        | some (cs, r) => some (node :: cs, r)
        | none => none

/-- Modelled from the spec (§4.5), the literal reverse-order traversal:
"process instructions last to first, maintaining a pending double-ended
queue of unconsumed value-producing Nodes (`unused`) and an output list of
finalized Nodes (`terminated`)", with each instruction's pop requirement
drawn from `unused` per step 2.  Step 3 (jump expansion) presupposes that
the "next `offset` instructions" are still unprocessed, which cannot hold
when walking last to first; it is left unexpanded here, and the inputs this
model is compared on contain no jumps.  The body walks the reversed list,
so the head of `instrs.reverse` is the last instruction. -/
def specRevCore : List Instruction → List Node → List Node →
    Option (List Node × List Node)
  | [], unused, term => some (term, unused)
  | instr :: rest, unused, term =>
    match instr.push_count, instr.pop_count with
    | some push, some pop =>
      match specTakeAtLeast pop unused with
      | none => none
      | some (cs, unused') =>
        if push ≠ 0 then specRevCore rest (Node.mk instr cs :: unused') term
        else specRevCore rest unused' (term ++ [Node.mk instr cs])
    | _, _ => none

/-- Modelled from the spec (§4.5): run the reverse-order traversal over the
whole instruction array, require the pending queue empty at exhaustion, and
return `terminated` "in original forward program order" (the nodes were
collected during reverse processing, so they are reversed back). -/
def specReverseToNodes (instrs : List Instruction) : Option (List Node) :=
  match specRevCore instrs.reverse [] [] with
  | some (term, []) => some term.reverse
  | _ => none

/-- Decidable condition that the child-accumulation loop never overshoots:
walking the pending list front to back, each producer's push count is
defined and at most the remaining requirement, until the requirement is
exactly exhausted. -/
def accumOk : Nat → List Node → Bool
  | 0, _ => true
  | _ + 1, [] => false
  | needed + 1, node :: rest =>
    match node.instruction.push_count with
    | none => false
    | some p => p ≤ needed + 1 && accumOk (needed + 1 - p) rest

/-- Sum of the push counts of a list of nodes (`none` if any push count
would panic). -/
def pushSum (ns : List Node) : Option Nat :=
  match ns with
  | [] => some 0
  | n :: rest =>
    match n.instruction.push_count, pushSum rest with
    | some p, some s => some (p + s)
    | _, _ => none

/-- Instruction word with the stock Lua 4.0 field widths (32-bit word,
6-bit opcode, 9-bit B field) used by all concrete examples. -/
def mkI (w : Nat) : Instruction := ⟨w, 32, 6, 9⟩

/-- The signed-operand bias for the stock widths: `(2^26 - 1) >> 1`. -/
def biasU : Nat := 33554431

/-- Instruction `PushInt(5)`: opcode 6, signed operand 5. -/
def pushInt5 : Instruction := mkI ((biasU + 5) * 64 + 6)

/-- Instruction `AddInt(3)`: opcode 24, signed operand 3. -/
def addInt3 : Instruction := mkI ((biasU + 3) * 64 + 24)

/-- Instruction `Return(1)`: opcode 1, unsigned operand 1. -/
def return1 : Instruction := mkI (1 * 64 + 1)

/-- Instruction `End`: opcode 0, word 0. -/
def endI : Instruction := mkI 0

/-- Instruction `Add`: opcode 23, no operand (pops 2, pushes 1). -/
def addI : Instruction := mkI 23

/-- Instruction `GetGlobal(0)`: opcode 12, unsigned operand 0. -/
def getGlobal0 : Instruction := mkI 12

/-- Instruction `GetGlobal(1)`: opcode 12, unsigned operand 1. -/
def getGlobal1 : Instruction := mkI (1 * 64 + 12)

/-- Instruction `PushString(1)`: opcode 7, unsigned operand 1. -/
def pushString1 : Instruction := mkI (1 * 64 + 7)

/-- Instruction `PushSelf(0)`: opcode 16 (pops 1, pushes 2). -/
def pushSelf0 : Instruction := mkI 16

/-- Instruction `SetGlobal(0)`: opcode 19 (pops 1, pushes nothing). -/
def setGlobal0 : Instruction := mkI 19

/-- Instruction `Call(A=1, B=0)`: opcode 2, A field 1, B field 0. -/
def call10 : Instruction := mkI (1 * 32768 + 2)

/-- Instruction `Call(A=2, B=0)`: opcode 2, A field 2, B field 0. -/
def call20 : Instruction := mkI (2 * 32768 + 2)

/-- Instruction `TailCall(A=0, B=0)`: opcode 3 — no rendering rule in the generator. -/
def tailCall00 : Instruction := mkI 3

/-- Instruction `JumpEqual(+2)`: opcode 33, signed operand `+2`. -/
def jumpEqual2 : Instruction := mkI ((biasU + 2) * 64 + 33)

/-- Instruction `Jump(0)`: opcode 42, signed operand 0. -/
def jump0 : Instruction := mkI (biasU * 64 + 42)

/-- Instruction `Jump(+1)`: opcode 42, signed operand `+1`. -/
def jumpP1 : Instruction := mkI ((biasU + 1) * 64 + 42)

/-- Scenario A instruction list `[PushInt(5), AddInt(3), Return(1)]`. -/
def scenA : List Instruction := [pushInt5, addInt3, return1]

/-- The node forest Scenario A builds. -/
def scenANodes : List Node :=
  [Node.mk return1 [Node.mk addInt3 [Node.mk pushInt5 []]]]

/-- Empty constants pool. -/
def noConsts : Constants := ⟨[], [], []⟩

/-- Constants pool for Scenario B: string 0 is the global name `print`,
string 1 the literal `hi`. -/
def constsB : Constants := ⟨["print", "hi"], [], []⟩

/-- The `(sizeof_int, endianess)` pairs the `int` decoder implements. -/
def intSupported (h : Header) : Prop :=
  (h.sizeof_int = 2 ∨ h.sizeof_int = 4) ∧ (h.endianess = 0 ∨ h.endianess = 1)

/-- The `(sizeof_size_t, endianess)` pairs the `size_t` decoder implements. -/
def sizeTSupported (h : Header) : Prop :=
  (h.sizeof_size_t = 2 ∨ h.sizeof_size_t = 4 ∨ h.sizeof_size_t = 8) ∧
  (h.endianess = 0 ∨ h.endianess = 1)

/-- The `(sizeof_instruction, endianess)` pairs the `instruction` decoder
implements. -/
def instructionSupported (h : Header) : Prop :=
  (h.sizeof_instruction = 2 ∨ h.sizeof_instruction = 4 ∨
    h.sizeof_instruction = 8) ∧
  (h.endianess = 0 ∨ h.endianess = 1)

/-- The `(sizeof_number, endianess)` pairs the `number` decoder implements. -/
def numberSupported (h : Header) : Prop :=
  (h.sizeof_number = 4 ∨ h.sizeof_number = 8) ∧
  (h.endianess = 0 ∨ h.endianess = 1)

/-- Opcodes for which `process_node` has a rendering arm; everything else
falls into the final `todo!()`. -/
def hasRenderRule (o : OpCode) : Bool :=
  match o with
  | .End | .Return | .Call | .PushNil | .PushInt | .PushString | .PushNumber
  | .PushNegativeNumber | .GetLocal | .GetGlobal | .GetDotted | .PushSelf
  | .CreateTable | .SetGlobal | .SetTable | .AddInt
  | .JumpNotEqual | .JumpEqual | .JumpLessThan | .JumpLessThanEqual
  | .JumpGreaterThan | .JumpGreaterThanEqual | .JumpIfTrue | .JumpIfFalse
  | .Closure => true
  | _ => false

/-- A little-endian header with the stock Lua 4.0 sizes (4-byte ints and
instruction words, 32/6/9 field widths). -/
def hdrLE : Header := ⟨0x1b, "Lua", 0x40, 1, 4, 4, 4, 32, 6, 9, 8, []⟩

/-- A header whose size/endianness combinations none of the primitive
decoders implement. -/
def hdrBad : Header := ⟨0x1b, "Lua", 0x40, 2, 3, 3, 3, 32, 6, 9, 3, []⟩

/-- C1: for `[PushInt(5), AddInt(3), Return(1)]`, `to_nodes` builds exactly
one terminated node — a `Return` node whose single child is the `AddInt`
node, which in turn holds the `PushInt` node — and `process_node` renders
it as `return 5 + 3`. -/
theorem scenarioA_builds_and_renders :
    to_nodes scenA = some scenANodes ∧
    process_node 4 (Node.mk return1 [Node.mk addInt3 [Node.mk pushInt5 []]])
      [] noConsts = some "return 5 + 3" :=
  ⟨rfl, rfl⟩

/-- C7 counterexample: with Call operands `A = 1, B = 0` as the claim
states, the Call pops only the `PushString` producer, the `GetGlobal` node
is left pending, and the final `assert_eq!(0, unused.len())` fails — the
builder panics instead of producing anything to render. -/
theorem scenarioB_with_a1_fails :
    to_nodes [getGlobal0, pushString1, call10] = none :=
  rfl

/-- C7 amended: with Call operand `A = 2` (the pop requirement covering the
string argument and the global callee) and `B = 0`, the builder terminates
in one Call node whose children are the argument then the callee, and the
generator renders `print("hi")`. -/
theorem scenarioB_with_a2_renders :
    to_nodes [getGlobal0, pushString1, call20] =
      some [Node.mk call20 [Node.mk pushString1 [], Node.mk getGlobal0 []]] ∧
    process_node 5
      (Node.mk call20 [Node.mk pushString1 [], Node.mk getGlobal0 []])
      [] constsB = some "print(\"hi\")" :=
  ⟨rfl, rfl⟩

/-- C4 counterexample: a `PushSelf` producer pushes 2 while a later
`SetGlobal` needs only 1, so the accumulation loop's `usize` subtraction
`needed -= push_count` underflows — the accumulation is not well-defined
when a popped producer's push count exceeds the remaining requirement, and
`to_nodes` fails on `[GetGlobal(0), PushSelf(0), SetGlobal(0)]`. -/
theorem overshoot_accumulation_fails :
    takeChildren 1 [Node.mk pushSelf0 [Node.mk getGlobal0 []]] = none ∧
    to_nodes [getGlobal0, pushSelf0, setGlobal0] = none :=
  ⟨rfl, rfl⟩

/-- C4 amended: children are popped from the back of `unused` until the pop
requirement is exactly exhausted; whenever no popped producer overshoots the
remaining requirement (`accumOk`), the loop terminates with children whose
push counts sum to exactly the pop requirement, taken in order from the back
of the pending queue.  A producer whose push count exceeds the remaining
requirement — or an exhausted queue — is a hard failure. -/
theorem takeChildren_exact :
    ∀ unused needed, accumOk needed unused = true →
      ∃ cs rest, takeChildren needed unused = some (cs, rest) ∧
        unused = cs ++ rest ∧ pushSum cs = some needed := by
  intro unused
  induction unused with
  | nil =>
    intro needed h
    cases needed with
    | zero => exact ⟨[], [], rfl, rfl, rfl⟩
    | succ n => simp [accumOk] at h
  | cons node rest ih =>
    intro needed h
    cases needed with
    | zero => exact ⟨[], node :: rest, rfl, rfl, rfl⟩
    | succ n =>
      simp only [accumOk] at h
      split at h
      · exact absurd h (by simp)
      · next p hp =>
        rw [Bool.and_eq_true] at h
        obtain ⟨hle, hrec⟩ := h
        rw [decide_eq_true_eq] at hle
        obtain ⟨cs, r, htc, happ, hsum⟩ := ih (n + 1 - p) hrec
        refine ⟨node :: cs, r, ?_, by simp [happ], ?_⟩
        · simp [takeChildren, hp, hle, htc]
        · simp [pushSum, hp, hsum]
          omega

theorem takeChildren_exact_witness :
    ∃ cs rest, takeChildren 1 [Node.mk pushInt5 []] = some (cs, rest) ∧
      [Node.mk pushInt5 []] = cs ++ rest ∧ pushSum cs = some 1 :=
  takeChildren_exact [Node.mk pushInt5 []] 1 rfl

/-- C9 counterexample: `TailCall` has no rendering rule, so `process_node`
hits the `todo!()` panic; an `End` node on its own renders fine, yet the
caller loop over the forest `[End, TailCall]` yields nothing at all — the
failure is a panic that aborts the whole rendering, not a per-node result
the caller could skip while other nodes still render. -/
theorem unsupported_opcode_aborts_rendering :
    process_node 3 (Node.mk tailCall00 []) [] noConsts = none ∧
    process_node 3 (Node.mk endI []) [] noConsts = some "" ∧
    renderAll 3 [Node.mk endI [], Node.mk tailCall00 []] noConsts = none :=
  ⟨rfl, rfl, rfl⟩

/-- C9 amended: any node whose opcode has no rendering arm makes
`process_node` fail (the `todo!()` panic — whose message, not a returned
value, carries the opcode and children), never emitting incorrect text; and
the failure is not recoverable per node: one failing node anywhere in the
forest aborts the caller's whole rendering loop. -/
theorem todo_arm_is_unrecoverable :
    (∀ fuel i op cs locals k, i.op = some op → hasRenderRule op = false →
      process_node (fuel + 1) (Node.mk i cs) locals k = none) ∧
    (∀ fuel pre post n k, process_node fuel n [] k = none →
      renderAll fuel (pre ++ n :: post) k = none) := by
  constructor
  · intro fuel i op cs locals k hop hrule
    have hro : ∀ strs, renderOne i strs locals k = none := by
      intro strs
      unfold renderOne
      rw [hop]
      cases op <;> simp_all [hasRenderRule]
    simp only [process_node]
    split
    · rfl
    · next strs _ => exact hro strs
  · intro fuel pre post n k hn
    induction pre with
    | nil => simp [renderAll, hn]
    | cons m ms ih =>
      simp only [List.cons_append, renderAll]
      cases hm : process_node fuel m [] k <;> simp [hm, ih]

theorem todo_arm_is_unrecoverable_witness :
    process_node 1 (Node.mk jump0 []) [] noConsts = none ∧
    renderAll 2 ([] ++ Node.mk tailCall00 [] :: []) noConsts = none :=
  ⟨todo_arm_is_unrecoverable.1 0 jump0 .Jump [] [] noConsts rfl rfl,
   todo_arm_is_unrecoverable.2 2 [] [] (Node.mk tailCall00 []) noConsts rfl⟩

/-- C2: `to_nodes` returns a forest only when every pop requirement was met
from still-unconsumed producers and the pending `unused` queue is empty at
exhaustion (the final `assert_eq!`); an instruction array whose pop
requirement cannot be met — `Add` pops 2 with only one preceding producer —
fails hard, as does an array leaving an unconsumed producer behind. -/
theorem to_nodes_stack_balance :
    (∀ instrs ns, to_nodes instrs = some ns →
      ∃ tr, toNodesCoreF (instrs.length + 1) instrs [] [] = some (ns, [], tr)) ∧
    to_nodes [pushInt5, addI] = none ∧
    to_nodes [pushInt5] = none := by
  refine ⟨?_, rfl, rfl⟩
  intro instrs ns h
  unfold to_nodes at h
  split at h
  · next term tr heq =>
    obtain rfl : term = ns := Option.some.inj h
    exact ⟨tr, heq⟩
  · exact absurd h (by simp)

theorem to_nodes_stack_balance_witness :
    ∃ tr, toNodesCoreF 4 scenA [] [] = some (scenANodes, [], tr) :=
  to_nodes_stack_balance.1 scenA scenANodes rfl

/-- Every successful run of the builder loop processes the instructions of
its queue exactly once each, in original forward order (the trace — the
order of the source's log lines — is the queue itself), and extends the
`terminated` accumulator with nodes whose instructions form an in-order
sublist of the queue. -/
theorem toNodesCoreF_forward :
    ∀ fuel queue unused term t u tr,
      toNodesCoreF fuel queue unused term = some (t, u, tr) →
      tr = queue ∧
      ∃ s, t = term ++ s ∧ (s.map Node.instruction).Sublist queue := by
  intro fuel
  induction fuel with
  | zero =>
    intro queue unused term t u tr h
    simp [toNodesCoreF] at h
  | succ fuel ih =>
    intro queue unused term t u tr h
    cases queue with
    | nil =>
      simp only [toNodesCoreF, Option.some.injEq, Prod.mk.injEq] at h
      obtain ⟨rfl, rfl, rfl⟩ := h
      exact ⟨rfl, [], by simp, List.nil_sublist []⟩
    | cons instr rest =>
      simp only [toNodesCoreF] at h
      split at h
      case h_2 => exact absurd h (by simp)
      case h_1 op push pop hop hpush hpop =>
        split at h
        · exact absurd h (by simp)
        · next children unused' htc =>
          split at h
          · split at h
            · split at h
              case h_2 => exact absurd h (by simp)
              case h_1 body btr hinner =>
                rw [Option.map_eq_some'] at h
                obtain ⟨⟨t', u', tr'⟩, hcore, heq⟩ := h
                obtain ⟨rfl, rfl, rfl⟩ :
                    t' = t ∧ u' = u ∧ instr :: (btr ++ tr') = tr := by
                  simpa using heq
                obtain ⟨hbtr, -⟩ := ih _ _ _ _ _ _ hinner
                obtain ⟨htr', s, hts, hsub⟩ := ih _ _ _ _ _ _ hcore
                subst hbtr htr'
                constructor
                · rw [List.take_append_drop]
                · by_cases hp : push = 0
                  · rw [if_neg (by simp [hp])] at hts
                    refine ⟨Node.mk instr (children ++ body) :: s, ?_, ?_⟩
                    · rw [hts]
                      simp
                    · exact List.Sublist.cons₂ instr
                        (hsub.trans (List.drop_sublist _ _))
                  · rw [if_pos hp] at hts
                    exact ⟨s, hts,
                      List.Sublist.cons instr
                        (hsub.trans (List.drop_sublist _ _))⟩
            · exact absurd h (by simp)
          · rw [Option.map_eq_some'] at h
            obtain ⟨⟨t', u', tr'⟩, hcore, heq⟩ := h
            obtain ⟨rfl, rfl, rfl⟩ :
                t' = t ∧ u' = u ∧ instr :: tr' = tr := by
              simpa using heq
            obtain ⟨htr', s, hts, hsub⟩ := ih _ _ _ _ _ _ hcore
            subst htr'
            refine ⟨rfl, ?_⟩
            by_cases hp : push = 0
            · rw [if_neg (by simp [hp])] at hts
              refine ⟨Node.mk instr children :: s, ?_, ?_⟩
              · rw [hts]
                simp
              · exact List.Sublist.cons₂ instr hsub
            · rw [if_pos hp] at hts
              exact ⟨s, hts, List.Sublist.cons instr hsub⟩

/-- C3 counterexample: the literal last-to-first traversal the spec
describes fails on Scenario A (processing `Return` first finds no producer
in the empty pending queue), while the implementation accepts it; and the
implementation's processing trace is the forward order, which differs from
the reverse order — so `to_nodes` neither processes last to first nor is it
equivalent to the specified reverse-order algorithm. -/
theorem reverse_traversal_refuted :
    specReverseToNodes scenA = none ∧
    to_nodes scenA = some scenANodes ∧
    toNodesTrace scenA = some scenA ∧
    scenA ≠ scenA.reverse :=
  ⟨rfl, rfl, rfl, by decide⟩

/-- C3 amended: `to_nodes` reverses the instructions into a deque and then
always pops from its back, so it processes the list in original first-to-
last order — on success the processing trace equals the input — and the
finalized forest is returned in original forward program order: its nodes'
instructions form an in-order sublist of the input. -/
theorem to_nodes_forward_order :
    ∀ instrs ns, to_nodes instrs = some ns →
      toNodesTrace instrs = some instrs ∧
      (ns.map Node.instruction).Sublist instrs := by
  intro instrs ns h
  unfold to_nodes at h
  split at h
  · next term tr heq =>
    obtain rfl : term = ns := Option.some.inj h
    obtain ⟨htr, s, hts, hsub⟩ := toNodesCoreF_forward _ _ _ _ _ _ _ heq
    subst htr
    constructor
    · unfold toNodesTrace
      rw [heq]
    · simpa [hts] using hsub
  · exact absurd h (by simp)

theorem to_nodes_forward_order_witness :
    toNodesTrace scenA = some scenA ∧
    (scenANodes.map Node.instruction).Sublist scenA :=
  to_nodes_forward_order scenA scenANodes rfl

/-- C5: a jump instruction with strictly positive signed offset removes the
next `s` instructions (in original order) from the remaining queue, runs
the builder recursively on that sub-range, and appends the resulting forest
as additional children of the jump's node before continuing on what is
left; concretely, `JumpEqual(+2)` followed by two statements nests those
two statements as children of the `JumpEqual` node rather than siblings,
and a non-positive-offset jump (`Jump(0)`) is not expanded and stays a leaf
beside its successor. -/
theorem jump_subrange_nesting :
    (∀ fuel instr queue unused term op push pop children unused' body btr,
      instr.op = some op → op.is_jump = true → 0 < instr.s →
      instr.push_count = some push → instr.pop_count = some pop →
      takeChildren pop unused = some (children, unused') →
      instr.s.toNat ≤ queue.length →
      toNodesCoreF fuel (queue.take instr.s.toNat) [] [] =
        some (body, [], btr) →
      toNodesCoreF (fuel + 1) (instr :: queue) unused term =
        (toNodesCoreF fuel (queue.drop instr.s.toNat)
            (if push ≠ 0 then Node.mk instr (children ++ body) :: unused'
              else unused')
            (if push ≠ 0 then term
              else term ++ [Node.mk instr (children ++ body)])).map
          (fun r => (r.1, r.2.1, instr :: (btr ++ r.2.2)))) ∧
    to_nodes [getGlobal0, getGlobal1, jumpEqual2, endI, endI] =
      some [Node.mk jumpEqual2
        [Node.mk getGlobal1 [], Node.mk getGlobal0 [],
         Node.mk endI [], Node.mk endI []]] ∧
    to_nodes [jump0, endI] = some [Node.mk jump0 [], Node.mk endI []] := by
  refine ⟨?_, rfl, rfl⟩
  intro fuel instr queue unused term op push pop children unused' body btr
    hop hj hs hpush hpop htc hlen hinner
  have hcond : (op.is_jump && decide (0 < instr.s)) = true := by
    simp [hj, hs]
  simp only [toNodesCoreF, hop, hpush, hpop, htc, hcond, if_true,
    if_pos hlen, hinner]

theorem jump_subrange_nesting_witness :
    toNodesCoreF 3 [jumpP1, endI] [] [] =
      (toNodesCoreF 2 [] [] [Node.mk jumpP1 [Node.mk endI []]]).map
        (fun r => (r.1, r.2.1, jumpP1 :: ([endI] ++ r.2.2))) :=
  jump_subrange_nesting.1 2 jumpP1 [endI] [] [] .Jump 0 0 [] [] [Node.mk endI []]
    [endI] rfl rfl (by decide) rfl rfl rfl (by decide) rfl

/-- C6: whenever the `code` parser returns an instruction array (rather
than a parse error or a panic), that array is non-empty and its last
instruction decodes to the `End` opcode; any declared instruction array not
ending in `End` trips the `assert!` and is never returned. -/
theorem code_requires_terminal_end :
    ∀ input h rest instrs,
      code input h = .ok rest instrs →
      instrs ≠ [] ∧
      ∃ last, instrs.getLast? = some last ∧ last.op = some OpCode.End := by
  intro input h rest instrs hc
  unfold code at hc
  split at hc
  case h_2 => exact absurd hc (by simp)
  case h_3 => exact absurd hc (by simp)
  case h_1 rest' count hint =>
    split at hc
    case h_2 => exact absurd hc (by simp)
    case h_3 => exact absurd hc (by simp)
    case h_1 rest'' instrs' hmany =>
      split at hc
      · exact absurd hc (by simp)
      · next last hlast =>
        split at hc
        · exact absurd hc (by simp)
        · next o hoeq =>
          split at hc
          · next hEnd =>
            obtain ⟨-, rfl⟩ :
                rest'' = rest ∧ instrs' = instrs := by
              simpa using hc
            subst hEnd
            refine ⟨?_, last, hlast, hoeq⟩
            intro hnil
            rw [hnil] at hlast
            exact absurd hlast (by simp)
          · exact absurd hc (by simp)

theorem code_requires_terminal_end_witness :
    ([endI] ≠ ([] : List Instruction)) ∧
    ∃ last, [endI].getLast? = some last ∧ last.op = some OpCode.End :=
  code_requires_terminal_end [1, 0, 0, 0, 0, 0, 0, 0] hdrLE [] [endI] rfl

/-- C10: a function body whose instruction-count prefix decodes to zero
makes the `code` parser panic — `code[code.len() - 1]` indexes an empty
vector — rather than return a structured parse error or an empty array. -/
theorem zero_count_code_panics :
    ∀ input h rest, int input h = .ok rest 0 → code input h = .panic := by
  intro input h rest hint
  unfold code
  rw [hint]
  rfl

theorem zero_count_code_panics_witness :
    code [0, 0, 0, 0] hdrLE = .panic :=
  zero_count_code_panics [0, 0, 0, 0] hdrLE [] rfl

/-- Splitting off `n` bytes succeeds on any input of length at least `n`. -/
theorem takeBytes_total :
    ∀ (n : Nat) (l : List Nat), n ≤ l.length →
      ∃ bs rest, takeBytes n l = some (bs, rest) := by
  intro n
  induction n with
  | zero => exact fun l _ => ⟨[], l, rfl⟩
  | succ m ih =>
    intro l hl
    cases l with
    | nil => simp at hl
    | cons b l' =>
      obtain ⟨bs, rest, hbs⟩ := ih l' (by simpa using hl)
      exact ⟨b :: bs, rest, by simp [takeBytes, hbs]⟩

/-- The fixed-width big-endian reader is total on sufficiently long input. -/
theorem beU_total (n : Nat) (l : List Nat) (h : n ≤ l.length) :
    ∃ rest v, beU n l = .ok rest v := by
  obtain ⟨bs, rest, hbs⟩ := takeBytes_total n l h
  exact ⟨rest, beVal bs, by simp [beU, hbs]⟩

/-- The fixed-width little-endian reader is total on sufficiently long
input. -/
theorem leU_total (n : Nat) (l : List Nat) (h : n ≤ l.length) :
    ∃ rest v, leU n l = .ok rest v := by
  obtain ⟨bs, rest, hbs⟩ := takeBytes_total n l h
  exact ⟨rest, leVal bs, by simp [leU, hbs]⟩

/-- Mapping a function over a successful parse preserves success. -/
theorem PResult.map_total (f : α → β) (r : PResult α)
    (h : ∃ rest v, r = .ok rest v) :
    ∃ rest w, PResult.map f r = .ok rest w := by
  obtain ⟨rest, v, rfl⟩ := h
  exact ⟨rest, f v, rfl⟩

/-- C8: each primitive decoder (`int`, `size_t`, `instruction`, `number`)
succeeds on every input at least as long as its declared width whenever the
header's `(size, endianness)` pair is one it implements — each is a pure
function of the input, so decoding is deterministic — and for every
unsupported pair it fails (the `unimplemented!()` panic) instead of
misreading the bytes and returning a plausible value. -/
theorem primitive_decoder_totality :
    (∀ h input, intSupported h → h.sizeof_int ≤ input.length →
      ∃ rest v, int input h = .ok rest v) ∧
    (∀ h input, ¬ intSupported h → int input h = .panic) ∧
    (∀ h input, sizeTSupported h → h.sizeof_size_t ≤ input.length →
      ∃ rest v, size_t input h = .ok rest v) ∧
    (∀ h input, ¬ sizeTSupported h → size_t input h = .panic) ∧
    (∀ h input, instructionSupported h → h.sizeof_instruction ≤ input.length →
      ∃ rest v, instruction input h = .ok rest v) ∧
    (∀ h input, ¬ instructionSupported h → instruction input h = .panic) ∧
    (∀ h input, numberSupported h → h.sizeof_number ≤ input.length →
      ∃ rest v, number input h = .ok rest v) ∧
    (∀ h input, ¬ numberSupported h → number input h = .panic) := by
  refine ⟨?_, ?_, ?_, ?_, ?_, ?_, ?_, ?_⟩
  · intro h input hsupp hlen
    unfold int
    split
    case h_1 a b hsz hend =>
      exact PResult.map_total _ _ (beU_total 2 input (hsz ▸ hlen))
    case h_2 a b hsz hend =>
      exact PResult.map_total _ _ (leU_total 2 input (hsz ▸ hlen))
    case h_3 a b hsz hend =>
      exact PResult.map_total _ _ (beU_total 4 input (hsz ▸ hlen))
    case h_4 a b hsz hend =>
      exact PResult.map_total _ _ (leU_total 4 input (hsz ▸ hlen))
    case h_5 a b h1 h2 h3 h4 =>
      exfalso
      obtain ⟨hsz | hsz, hend | hend⟩ := hsupp
      exacts [h1 hsz hend, h2 hsz hend, h3 hsz hend, h4 hsz hend]
  · intro h input hns
    unfold int
    split
    · exact absurd ⟨Or.inl (by assumption), Or.inl (by assumption)⟩ hns
    · exact absurd ⟨Or.inl (by assumption), Or.inr (by assumption)⟩ hns
    · exact absurd ⟨Or.inr (by assumption), Or.inl (by assumption)⟩ hns
    · exact absurd ⟨Or.inr (by assumption), Or.inr (by assumption)⟩ hns
    · rfl
  · intro h input hsupp hlen
    unfold size_t
    split
    case h_1 a b hsz hend => exact beU_total 2 input (hsz ▸ hlen)
    case h_2 a b hsz hend => exact leU_total 2 input (hsz ▸ hlen)
    case h_3 a b hsz hend => exact beU_total 4 input (hsz ▸ hlen)
    case h_4 a b hsz hend => exact leU_total 4 input (hsz ▸ hlen)
    case h_5 a b hsz hend => exact beU_total 8 input (hsz ▸ hlen)
    case h_6 a b hsz hend => exact leU_total 8 input (hsz ▸ hlen)
    case h_7 a b h1 h2 h3 h4 h5 h6 =>
      exfalso
      obtain ⟨hsz | hsz | hsz, hend | hend⟩ := hsupp
      exacts [h1 hsz hend, h2 hsz hend, h3 hsz hend, h4 hsz hend,
        h5 hsz hend, h6 hsz hend]
  · intro h input hns
    unfold size_t
    split
    · exact absurd ⟨Or.inl (by assumption), Or.inl (by assumption)⟩ hns
    · exact absurd ⟨Or.inl (by assumption), Or.inr (by assumption)⟩ hns
    · exact absurd ⟨Or.inr (Or.inl (by assumption)),
        Or.inl (by assumption)⟩ hns
    · exact absurd ⟨Or.inr (Or.inl (by assumption)),
        Or.inr (by assumption)⟩ hns
    · exact absurd ⟨Or.inr (Or.inr (by assumption)),
        Or.inl (by assumption)⟩ hns
    · exact absurd ⟨Or.inr (Or.inr (by assumption)),
        Or.inr (by assumption)⟩ hns
    · rfl
  · intro h input hsupp hlen
    unfold instruction
    split
    case h_1 a b hsz hend =>
      exact PResult.map_total _ _ (beU_total 2 input (hsz ▸ hlen))
    case h_2 a b hsz hend =>
      exact PResult.map_total _ _ (leU_total 2 input (hsz ▸ hlen))
    case h_3 a b hsz hend =>
      exact PResult.map_total _ _ (beU_total 4 input (hsz ▸ hlen))
    case h_4 a b hsz hend =>
      exact PResult.map_total _ _ (leU_total 4 input (hsz ▸ hlen))
    case h_5 a b hsz hend =>
      exact PResult.map_total _ _ (beU_total 8 input (hsz ▸ hlen))
    case h_6 a b hsz hend =>
      exact PResult.map_total _ _ (leU_total 8 input (hsz ▸ hlen))
    case h_7 a b h1 h2 h3 h4 h5 h6 =>
      exfalso
      obtain ⟨hsz | hsz | hsz, hend | hend⟩ := hsupp
      exacts [h1 hsz hend, h2 hsz hend, h3 hsz hend, h4 hsz hend,
        h5 hsz hend, h6 hsz hend]
  · intro h input hns
    unfold instruction
    split
    · exact absurd ⟨Or.inl (by assumption), Or.inl (by assumption)⟩ hns
    · exact absurd ⟨Or.inl (by assumption), Or.inr (by assumption)⟩ hns
    · exact absurd ⟨Or.inr (Or.inl (by assumption)),
        Or.inl (by assumption)⟩ hns
    · exact absurd ⟨Or.inr (Or.inl (by assumption)),
        Or.inr (by assumption)⟩ hns
    · exact absurd ⟨Or.inr (Or.inr (by assumption)),
        Or.inl (by assumption)⟩ hns
    · exact absurd ⟨Or.inr (Or.inr (by assumption)),
        Or.inr (by assumption)⟩ hns
    · rfl
  · intro h input hsupp hlen
    unfold number
    split
    case h_1 a b hsz hend => exact beU_total 4 input (hsz ▸ hlen)
    case h_2 a b hsz hend => exact leU_total 4 input (hsz ▸ hlen)
    case h_3 a b hsz hend => exact beU_total 8 input (hsz ▸ hlen)
    case h_4 a b hsz hend => exact leU_total 8 input (hsz ▸ hlen)
    case h_5 a b h1 h2 h3 h4 =>
      exfalso
      obtain ⟨hsz | hsz, hend | hend⟩ := hsupp
      exacts [h1 hsz hend, h2 hsz hend, h3 hsz hend, h4 hsz hend]
  · intro h input hns
    unfold number
    split
    · exact absurd ⟨Or.inl (by assumption), Or.inl (by assumption)⟩ hns
    · exact absurd ⟨Or.inl (by assumption), Or.inr (by assumption)⟩ hns
    · exact absurd ⟨Or.inr (by assumption), Or.inl (by assumption)⟩ hns
    · exact absurd ⟨Or.inr (by assumption), Or.inr (by assumption)⟩ hns
    · rfl

theorem primitive_decoder_totality_witness :
    (∃ rest v, int [0, 0, 0, 0] hdrLE = .ok rest v) ∧
    int [0, 0, 0, 0] hdrBad = .panic ∧
    (∃ rest v, size_t [0, 0, 0, 0] hdrLE = .ok rest v) ∧
    size_t [0, 0, 0, 0] hdrBad = .panic ∧
    (∃ rest v, instruction [0, 0, 0, 0] hdrLE = .ok rest v) ∧
    instruction [0, 0, 0, 0] hdrBad = .panic ∧
    (∃ rest v, number [0, 0, 0, 0, 0, 0, 0, 0] hdrLE = .ok rest v) ∧
    number [0, 0, 0, 0, 0, 0, 0, 0] hdrBad = .panic :=
  ⟨primitive_decoder_totality.1 hdrLE [0, 0, 0, 0]
      ⟨Or.inr rfl, Or.inr rfl⟩ (by simp [hdrLE]),
   primitive_decoder_totality.2.1 hdrBad [0, 0, 0, 0]
      (by simp [intSupported, hdrBad]),
   primitive_decoder_totality.2.2.1 hdrLE [0, 0, 0, 0]
      ⟨Or.inr (Or.inl rfl), Or.inr rfl⟩ (by simp [hdrLE]),
   primitive_decoder_totality.2.2.2.1 hdrBad [0, 0, 0, 0]
      (by simp [sizeTSupported, hdrBad]),
   primitive_decoder_totality.2.2.2.2.1 hdrLE [0, 0, 0, 0]
      ⟨Or.inr (Or.inl rfl), Or.inr rfl⟩ (by simp [hdrLE]),
   primitive_decoder_totality.2.2.2.2.2.1 hdrBad [0, 0, 0, 0]
      (by simp [instructionSupported, hdrBad]),
   primitive_decoder_totality.2.2.2.2.2.2.1 hdrLE [0, 0, 0, 0, 0, 0, 0, 0]
      ⟨Or.inr rfl, Or.inr rfl⟩ (by simp [hdrLE]),
   primitive_decoder_totality.2.2.2.2.2.2.2 hdrBad [0, 0, 0, 0, 0, 0, 0, 0]
      (by simp [numberSupported, hdrBad])⟩
